import Mathlib

/-! A shallow embedding of the `http-server-v2` Node.js repository:
`src/models/product.model.js` (the in-memory product store) and
`src/server.js` (URL routing, REST dispatch, the echo route, and static
content types).  JavaScript strings are modelled as Lean strings for routing
paths, and as lists of UTF-16 code units for the echo route, whose
`.length`/`.split('')` operations are code-unit based. -/

/-- A product record (`id`, `title`, `sku`, `price`), the data model of
`product.model.js`.  Ids and prices are modelled as integers (the spec fixes
integers for both; non-integer JSON number payloads are outside the modelled
scope). -/
structure Record where
  id : Int
  title : String
  sku : String
  price : Int
deriving DecidableEq, Repr

/-- The three seed records (`const products = [...]`, product.model.js). -/
def productsSeed : List Record :=
  [⟨1001, "T-Shirt", "ABC-1001", 49900⟩,
   ⟨1002, "Cap", "ABC-1002", 19900⟩,
   ⟨1003, "Jeans", "ABC-1003", 99900⟩]

/-- JS `Array.prototype.findIndex`: index of the first element satisfying the
predicate; `none` models the JS result -1. -/
def findIndex (p : α → Bool) : List α → Option Nat
  | [] => none
  | a :: as => if p a then some 0 else (findIndex p as).map (· + 1)

/-- Apply a function to the element at one index (models in-place field
mutation of `products[targetIndex]`). -/
def modifyAt (f : α → α) : Nat → List α → List α
  | _, [] => []
  | 0, a :: as => f a :: as
  | n + 1, a :: as => a :: modifyAt f n as

/-- A JavaScript object field that may be absent (`undefined`), `null`, or
carry a value. -/
inductive JsField (α : Type) where
  | absent
  | null
  | val (a : α)
deriving DecidableEq, Repr

/-- JS nullish coalescing `x ?? d`: `undefined` and `null` both fall back to
`d`; every other value (including `0` and `""`) is kept. -/
def JsField.coalesce : JsField α → α → α
  | .absent, d => d
  | .null, d => d
  | .val a, _ => a

/-- The JSON body of a PATCH request as read by `update`: the handler reads
`data.title`, `data.sku`, `data.price`; an `id` field of the body exists but
is never read by the source. -/
structure PatchData where
  id : JsField Int
  title : JsField String
  sku : JsField String
  price : JsField Int
deriving DecidableEq, Repr

/-- `all()` (product.model.js): returns every record. -/
def Product.all (products : List Record) : List Record :=
  products

/-- `getById(id)` (product.model.js):
`products.find(product => product.id === id)`. -/
def Product.getById (products : List Record) (id : Int) : Option Record :=
  products.find? (fun product => product.id == id)

/-- `add(product)` (product.model.js): `products.push(product)`. -/
def Product.add (products : List Record) (product : Record) : List Record :=
  products ++ [product]

/-- `remove(id)` (product.model.js): find the first index whose record has the
id, `splice` exactly that element out, and report whether one was found. -/
def Product.remove (products : List Record) (id : Int) : Bool × List Record :=
  match findIndex (fun product => product.id == id) products with
  | none => (false, products)
  | some i => (true, products.eraseIdx i)

/-- `update(id, data)` (product.model.js): on the first record with the id,
each of title/sku/price is assigned `data.field ?? currentValue`; the record's
`id` field is never assigned.  Returns whether a record was found. -/
def Product.update (products : List Record) (id : Int) (data : PatchData) :
    Bool × List Record :=
  match findIndex (fun product => product.id == id) products with
  | none => (false, products)
  | some i =>
    (true, modifyAt (fun r =>
      { r with
        title := data.title.coalesce r.title
        sku := data.sku.coalesce r.sku
        price := data.price.coalesce r.price }) i products)

/-! ## JS `Number(string)` (the ToNumber operation on strings)

`server.js` computes `const resourceId = Number(reqUrlParts[2])` and gates the
item-level routes on `Number.isInteger(resourceId)`.  ToNumber on strings is
modelled in two stages, as in the ECMAScript specification: the string numeric
literal grammar first yields the literal's exact mathematical value,
represented as `mant * 10 ^ exp10` (hex/octal/binary literals use
`exp10 = 0`), and that exact value is then rounded to the nearest binary64
value (`roundF64`): round to nearest, ties to even, subnormal range included,
underflow to zero, overflow to an infinity. -/

/-- A decimal-scaled integer `mant * 10 ^ exp10`, the exact value of a JS
numeric literal. -/
structure DecNum where
  mant : Int
  exp10 : Int
deriving DecidableEq, Repr

/-- The result of JS `Number(string)`: NaN, an infinity, or a finite value. -/
inductive JSNum where
  | nan
  | posInf
  | negInf
  | num (v : DecNum)
deriving DecidableEq, Repr

/-- JS unary minus on a ToNumber result. -/
def JSNum.neg : JSNum → JSNum
  | .nan => .nan
  | .posInf => .negInf
  | .negInf => .posInf
  | .num v => .num ⟨-v.mant, v.exp10⟩

/-- ASCII decimal digit test (by code point, so that arithmetic lemmas apply). -/
def isDigitC (c : Char) : Bool :=
  decide (48 ≤ c.toNat ∧ c.toNat ≤ 57)

/-- Hexadecimal digit test. -/
def isHexDigitC (c : Char) : Bool :=
  decide ((48 ≤ c.toNat ∧ c.toNat ≤ 57) ∨ (97 ≤ c.toNat ∧ c.toNat ≤ 102) ∨
          (65 ≤ c.toNat ∧ c.toNat ≤ 70))

/-- Octal digit test. -/
def isOctDigitC (c : Char) : Bool :=
  decide (48 ≤ c.toNat ∧ c.toNat ≤ 55)

/-- Binary digit test. -/
def isBinDigitC (c : Char) : Bool :=
  decide (48 ≤ c.toNat ∧ c.toNat ≤ 49)

/-- Value of a hex digit. -/
def hexDigVal (c : Char) : Nat :=
  if 97 ≤ c.toNat then c.toNat - 87
  else if 65 ≤ c.toNat then c.toNat - 55
  else c.toNat - 48

/-- Digits to a natural number in base `b` (most significant first). -/
def radixToNat (b : Nat) (v : Char → Nat) (cs : List Char) : Nat :=
  cs.foldl (fun a c => b * a + v c) 0

/-- Decimal digits to a natural number. -/
def digitsToNat (cs : List Char) : Nat :=
  radixToNat 10 (fun c => c.toNat - 48) cs

/-- JS StrWhiteSpaceChar: WhiteSpace (TAB, VT, FF, SP, NBSP, ZWNBSP and the
Unicode Zs category: U+1680, U+2000..U+200A, U+202F, U+205F, U+3000) together
with the LineTerminator characters (LF, CR, LS, PS). -/
def isJsWs (c : Char) : Bool :=
  decide (c.toNat = 32 ∨ c.toNat = 9 ∨ c.toNat = 10 ∨ c.toNat = 13 ∨
          c.toNat = 11 ∨ c.toNat = 12 ∨ c.toNat = 160 ∨ c.toNat = 65279 ∨
          c.toNat = 8232 ∨ c.toNat = 8233 ∨ c.toNat = 5760 ∨
          (8192 ≤ c.toNat ∧ c.toNat ≤ 8202) ∨ c.toNat = 8239 ∨
          c.toNat = 8287 ∨ c.toNat = 12288)

/-- Drop leading JS whitespace. -/
def trimLeftWs : List Char → List Char
  | [] => []
  | c :: cs => if isJsWs c then trimLeftWs cs else c :: cs

/-- The ExponentPart after the `e`/`E` marker: optional sign, then digits. -/
def parseExpPart (cs : List Char) : Option Int :=
  match cs with
  | '+' :: ds => if ds.isEmpty then none
                 else if ds.all isDigitC then some (digitsToNat ds) else none
  | '-' :: ds => if ds.isEmpty then none
                 else if ds.all isDigitC then some (-(digitsToNat ds : Int)) else none
  | ds => if ds.isEmpty then none
          else if ds.all isDigitC then some (digitsToNat ds) else none

/-- Exact value of a decimal literal with integer digits `ip`, fraction digits
`fp` and exponent `ex`. -/
def decValue (ip fp : List Char) (ex : Int) : DecNum :=
  ⟨digitsToNat (ip ++ fp), ex - fp.length⟩

/-- StrUnsignedDecimalLiteral: `Infinity`, or digits with optional fraction
and exponent (`DecimalDigits . DecimalDigits? ExponentPart?`,
`. DecimalDigits ExponentPart?`, `DecimalDigits ExponentPart?`). -/
def parseUnsignedDec (cs : List Char) : Option JSNum :=
  if cs = ['I', 'n', 'f', 'i', 'n', 'i', 't', 'y'] then some .posInf
  else
    let ip := cs.takeWhile isDigitC
    match cs.dropWhile isDigitC with
    | [] => if ip.isEmpty then none else some (.num ⟨digitsToNat ip, 0⟩)
    | c :: r2 =>
      if c = '.' then
        let fp := r2.takeWhile isDigitC
        match r2.dropWhile isDigitC with
        | [] => if ip.isEmpty ∧ fp.isEmpty then none
                else some (.num (decValue ip fp 0))
        | e :: r4 =>
          if (e = 'e' ∨ e = 'E') ∧ ¬(ip.isEmpty ∧ fp.isEmpty) then
            (parseExpPart r4).map (fun ex => JSNum.num (decValue ip fp ex))
          else none
      else if (c = 'e' ∨ c = 'E') ∧ ¬ip.isEmpty then
        (parseExpPart r2).map (fun ex => JSNum.num (decValue ip [] ex))
      else none

/-- StrDecimalLiteral: an optional sign in front of an unsigned decimal. -/
def parseSignedDec (cs : List Char) : Option JSNum :=
  match cs with
  | c :: rest =>
    if c = '+' then parseUnsignedDec rest
    else if c = '-' then (parseUnsignedDec rest).map JSNum.neg
    else parseUnsignedDec cs
  | [] => none

/-- StrNumericLiteral: a non-decimal integer literal (`0x`/`0o`/`0b`, no
sign allowed) or a signed decimal literal. -/
def parseStrNumeric (cs : List Char) : Option JSNum :=
  match cs with
  | c0 :: c1 :: rest =>
    if c0 = '0' ∧ (c1 = 'x' ∨ c1 = 'X') then
      if ¬rest.isEmpty ∧ rest.all isHexDigitC then
        some (.num ⟨radixToNat 16 hexDigVal rest, 0⟩)
      else none
    else if c0 = '0' ∧ (c1 = 'o' ∨ c1 = 'O') then
      if ¬rest.isEmpty ∧ rest.all isOctDigitC then
        some (.num ⟨radixToNat 8 (fun c => c.toNat - 48) rest, 0⟩)
      else none
    else if c0 = '0' ∧ (c1 = 'b' ∨ c1 = 'B') then
      if ¬rest.isEmpty ∧ rest.all isBinDigitC then
        some (.num ⟨radixToNat 2 (fun c => c.toNat - 48) rest, 0⟩)
      else none
    else parseSignedDec cs
  | _ => parseSignedDec cs

/-- Floor of the base-2 logarithm, with explicit fuel so that the recursion is
structural (and kernel-evaluable); `intLog2` supplies fuel `n`, which always
suffices. -/
def log2Fuel : Nat → Nat → Nat
  | 0, _ => 0
  | fuel + 1, n =>
    if 2 ^ 64 ≤ n then log2Fuel fuel (n / 2 ^ 64) + 64
    else if 2 ≤ n then log2Fuel fuel (n / 2) + 1
    else 0

/-- Floor of the base-2 logarithm (0 at 0). -/
def intLog2 (n : Nat) : Nat :=
  log2Fuel n n

/-- Decide `2 ^ k ≤ N / D` for the exact rational `N / D` (`D ≠ 0`). -/
def le2pow (k : Int) (N D : Nat) : Bool :=
  if 0 ≤ k then decide (2 ^ k.toNat * D ≤ N) else decide (D ≤ N * 2 ^ (-k).toNat)

/-- Round the exact rational `A / B` (`B ≠ 0`) to the nearest integer, ties to
even — the IEEE-754 rounding of the scaled mantissa. -/
def roundQuot (A B : Nat) : Nat :=
  let q := A / B
  let r := A % B
  if B < 2 * r then q + 1
  else if 2 * r < B then q
  else if q % 2 = 0 then q else q + 1

/-- A finite binary64 value `man * 2 ^ exp2` (the sign is carried by `man`). -/
structure F64 where
  man : Int
  exp2 : Int
deriving DecidableEq, Repr

/-- The result of JS `Number(string)` as a binary64 value. -/
inductive JSDouble where
  | nan
  | posInf
  | negInf
  | num (f : F64)
deriving DecidableEq, Repr

/-- `Number.isInteger` on a binary64 value.  (The power is computed in `Nat`
and cast: `Nat.pow` is evaluated directly by the kernel.) -/
def JSDouble.isIntegerNum : JSDouble → Bool
  | .num f => if 0 ≤ f.exp2 then true
              else f.man % ((2 ^ (-f.exp2).toNat : Nat) : Int) == 0
  | _ => false

/-- The integer value of an integral binary64 value (meaningful under
`isIntegerNum`; 0 otherwise). -/
def JSDouble.intVal : JSDouble → Int
  | .num f => if 0 ≤ f.exp2 then f.man * ((2 ^ f.exp2.toNat : Nat) : Int)
              else f.man / ((2 ^ (-f.exp2).toNat : Nat) : Int)
  | _ => 0

/-- The magnitude of `v` as an exact rational `N / D` (`v.mant ≠ 0`). -/
def f64ND (v : DecNum) : Nat × Nat :=
  (if 0 ≤ v.exp10 then v.mant.natAbs * 10 ^ v.exp10.toNat else v.mant.natAbs,
   if 0 ≤ v.exp10 then 1 else 10 ^ (-v.exp10).toNat)

/-- `⌊log2 (N / D)⌋` for `1 ≤ N`, `1 ≤ D`: the difference of the integer logs
is off by at most one, corrected by one exact comparison. -/
def f64k (N D : Nat) : Int :=
  let k0 : Int := (intLog2 N : Int) - intLog2 D
  if le2pow k0 N D then k0 else k0 - 1

/-- The binary64 scale for the value `N / D`: 52 bits below the leading bit,
bounded below by the subnormal scale -1074. -/
def f64s (N D : Nat) : Int :=
  max (f64k N D - 52) (-1074)

/-- The rounded mantissa of `N / D` at scale `f64s N D`: the nearest integer
(ties to even) to `(N / D) / 2 ^ s`. -/
def f64M (N D : Nat) : Nat :=
  if 0 ≤ f64s N D then roundQuot N (D * 2 ^ (f64s N D).toNat)
  else roundQuot (N * 2 ^ (-f64s N D).toNat) D

/-- Round the exact value `mant * 10 ^ exp10` to the nearest binary64 value
(IEEE-754 round to nearest, ties to even): writing the magnitude as the exact
rational `N / D`, find `k` with `2 ^ k ≤ N / D < 2 ^ (k + 1)`, round the
mantissa at scale `s = max (k - 52) (-1074)` (subnormal range included,
underflow to zero), and overflow to an infinity when the rounded magnitude
reaches `2 ^ 1024`. -/
def roundF64 (v : DecNum) : JSDouble :=
  if v.mant = 0 then .num ⟨0, 0⟩
  else
    let N := (f64ND v).1
    let D := (f64ND v).2
    if 0 ≤ f64s N D ∧ 2 ^ 1024 ≤ f64M N D * 2 ^ (f64s N D).toNat then
      if v.mant < 0 then .negInf else .posInf
    else
      .num ⟨if v.mant < 0 then -(f64M N D : Int) else (f64M N D : Int), f64s N D⟩

/-- Finalize a parsed literal's exact value to its binary64 value. -/
def JSNum.toDouble : JSNum → JSDouble
  | .nan => .nan
  | .posInf => .posInf
  | .negInf => .negInf
  | .num v => roundF64 v

/-- JS `Number(s)` for a string argument: trim whitespace on both sides, an
empty remainder yields `+0`, otherwise the whole remainder must be a
StrNumericLiteral whose exact value is rounded to binary64, else the result
is NaN. -/
def jsToNumber (s : String) : JSDouble :=
  let cs := trimLeftWs ((trimLeftWs s.data.reverse).reverse)
  if cs.isEmpty then .num ⟨0, 0⟩
  else match parseStrNumeric cs with
    | some v => v.toDouble
    | none => .nan

set_option maxRecDepth 16384
set_option exponentiation.threshold 4096

example : (jsToNumber "1001").isIntegerNum = true := by decide
example : (jsToNumber "1001").intVal = 1001 := by decide
example : (jsToNumber "1001.0").isIntegerNum = true := by decide
example : (jsToNumber "1001.0").intVal = 1001 := by decide
example : jsToNumber "abc" = .nan := by decide
example : jsToNumber "" = .num ⟨0, 0⟩ := by decide
example : (jsToNumber "  42  ").intVal = 42 := by decide
example : (jsToNumber "1.5").isIntegerNum = false := by decide
example : (jsToNumber "0x3e9").intVal = 1001 := by decide
example : (jsToNumber "1.0010e3").isIntegerNum = true := by decide
example : (jsToNumber "1.0010e3").intVal = 1001 := by decide
example : (jsToNumber "-7").isIntegerNum = true := by decide
example : (jsToNumber "-7").intVal = -7 := by decide
example : jsToNumber "Infinity" = .posInf := by decide
example : jsToNumber "-Infinity" = .negInf := by decide
example : (jsToNumber "12.").intVal = 12 := by decide
example : (jsToNumber ".5").isIntegerNum = false := by decide
example : jsToNumber "1e" = .nan := by decide
example : jsToNumber "-0x10" = .nan := by decide
example : (jsToNumber "1e2").intVal = 100 := by decide
example : (jsToNumber "1e-400").isIntegerNum = true := by decide
example : (jsToNumber "1e-400").intVal = 0 := by decide
example : (jsToNumber "5e-324").isIntegerNum = false := by decide
example : jsToNumber "5e-324" = .num ⟨1, -1074⟩ := by decide
example : jsToNumber "1e309" = .posInf := by decide
example : (jsToNumber "0.5").intVal = 0 := by decide
example : (jsToNumber (String.mk ('\u3000' :: "7".data))).intVal = 7 := by decide
example : jsToNumber "0.1" = .num ⟨7205759403792794, -56⟩ := by decide
example : (jsToNumber "9007199254740993").intVal = 9007199254740992 := by decide
example : (jsToNumber "9007199254740995").intVal = 9007199254740996 := by decide

/-! ## The echo route (server.js, `GET /echo`)

JS string operations `.length`, `.toUpperCase()` and `.split('')` act on
UTF-16 code units, so the echo computation is modelled over lists of code
units.  `toUpperCase` is modelled by its restriction to ASCII letters and is
the identity elsewhere, while JS applies full Unicode case mapping; the
`shouty` component of the model is therefore faithful only for ASCII inputs,
and the theorems below constrain `shouty` only under an ASCII hypothesis
(the other three components do not involve case mapping and are faithful for
every input). -/

/-- A JavaScript string as its list of UTF-16 code units. -/
def JSStr : Type := List Nat
deriving instance DecidableEq, Repr for JSStr

/-- The UTF-16 code units of one Unicode character: itself for BMP characters,
a surrogate pair for astral ones. -/
def utf16Units (c : Char) : List Nat :=
  if c.toNat < 65536 then [c.toNat]
  else [55296 + (c.toNat - 65536) / 1024, 56320 + (c.toNat - 65536) % 1024]

/-- Concatenation of a list-valued map. -/
def concatMap (f : α → List β) : List α → List β
  | [] => []
  | a :: as => f a ++ concatMap f as

/-- A Lean string (sequence of characters) as a JS string (UTF-16 code
units). -/
def utf16 (s : String) : JSStr :=
  concatMap utf16Units s.data

/-- `toUpperCase` on one code unit, restricted to ASCII letters (identity on
all other units; see the section comment for the fidelity scope). -/
def jsUpperUnit (u : Nat) : Nat :=
  if 97 ≤ u ∧ u ≤ 122 then u - 32 else u

/-- The four derived fields of the echo response. -/
structure EchoData where
  normal : JSStr
  shouty : JSStr
  characterCount : Nat
  backwards : JSStr
deriving DecidableEq, Repr

/-- The `GET /echo` computation (server.js): `query.input || 'Hello'` (absent
or empty input falls back, since `undefined` and `''` are falsy), then
`normal`/`shouty`/`characterCount`/`backwards` as in the source
(`input.toUpperCase()`, `input.length`, `input.split('').reverse().join('')`,
all code-unit operations). -/
def echoHandler (queryInput : Option JSStr) : EchoData :=
  let input : JSStr := match queryInput with
    | none => utf16 "Hello"
    | some s => if s.isEmpty then utf16 "Hello" else s
  { normal := input
    shouty := input.map jsUpperUnit
    characterCount := input.length
    backwards := input.reverse }

/-! ## The router/dispatcher (server.js) -/

/-- HTTP request methods distinguished by the router; `other` stands for any
further method, which matches no route. -/
inductive Method where
  | GET
  | POST
  | PATCH
  | DELETE
  | other
deriving DecidableEq, Repr

/-- A request body after `JSON.parse`, in the shapes the claims exercise: a
full record (POST) or a partial record (PATCH).  Other JSON shapes are outside
the modelled scope. -/
inductive ReqBody where
  | product (r : Record)
  | patch (p : PatchData)
deriving DecidableEq, Repr

/-- The JSON response bodies the server produces. -/
inductive JsonOut where
  | greetings
  | echoOut (e : EchoData)
  | okProducts (l : List Record)
  | created
  | notFound
  | okProduct (r : Record)
  | okOnly
deriving DecidableEq, Repr

/-- An HTTP response as the router determines it.  The two fixed HTML pages
are abstracted to markers (their text is never inspected); `staticFile` marks
delegation to `staticFileResponse` with the resolved relative path;
`bodyFailure` marks the unhandled `JSON.parse` exception on a malformed
POST/PATCH body (spec section 7: unhandled in the source). -/
inductive Response where
  | homePage
  | plainText (body : String)
  | json (status : Nat) (body : JsonOut)
  | staticFile (relPath : String)
  | notFoundHtml
  | bodyFailure
deriving DecidableEq, Repr

/-- JS `pathname.split('/')` on the character list (splitting on every
occurrence of the separator; `''.split('/')` is `['']`). -/
def splitSlash : List Char → List (List Char)
  | [] => [[]]
  | c :: cs =>
    if c = '/' then [] :: splitSlash cs
    else match splitSlash cs with
      | [] => [[c]]
      | g :: gs => (c :: g) :: gs

/-- `pathname.split('/')` producing strings. -/
def jsSplitSlash (s : String) : List String :=
  (splitSlash s.data).map String.mk

/-- JS `String.prototype.startsWith` on character lists. -/
def leadsWith : List Char → List Char → Bool
  | [], _ => true
  | _ :: _, [] => false
  | p :: ps, c :: cs => p = c ∧ leadsWith ps cs

/-- The `/products` family of routes (server.js lines 99-206): split path
segments, `resource = parts[1]`, `resourceId = Number(parts[2])`
(`Number(undefined)` is NaN when there is no third segment), then the five
REST guards in source order, falling back to the 404 HTML page. -/
def productsStage (method : Method) (parts : List String) (body : Option ReqBody)
    (store : List Record) : Response × List Record :=
  let resource := parts.getD 1 ""
  let resourceId : JSDouble := match parts.get? 2 with
    | none => .nan
    | some s => jsToNumber s
  if method = .GET ∧ parts.length = 2 ∧ resource = "products" then
    (.json 200 (.okProducts (Product.all store)), store)
  else if method = .POST ∧ parts.length = 2 ∧ resource = "products" then
    match body with
    | some (.product r) => (.json 201 .created, Product.add store r)
    | _ => (.bodyFailure, store)
  else if method = .GET ∧ parts.length = 3 ∧ resource = "products" ∧
      resourceId.isIntegerNum = true then
    match Product.getById store resourceId.intVal with
    | none => (.json 404 .notFound, store)
    | some product => (.json 200 (.okProduct product), store)
  else if method = .PATCH ∧ parts.length = 3 ∧ resource = "products" ∧
      resourceId.isIntegerNum = true then
    match body with
    | some (.patch p) =>
      match Product.update store resourceId.intVal p with
      | (false, store2) => (.json 404 .notFound, store2)
      | (true, store2) => (.json 200 .okOnly, store2)
    | _ => (.bodyFailure, store)
  else if method = .DELETE ∧ parts.length = 3 ∧ resource = "products" ∧
      resourceId.isIntegerNum = true then
    match Product.remove store resourceId.intVal with
    | (false, store2) => (.json 404 .notFound, store2)
    | (true, store2) => (.json 200 .okOnly, store2)
  else
    (.notFoundHtml, store)

/-- The full dispatcher (server.js lines 15-207): the fixed routes in source
order, then static files, then the `/products` family.  The query mapping is
abstracted to the already-decoded `input` parameter (the only one read). -/
def handle (method : Method) (pathname : String) (queryInput : Option JSStr)
    (body : Option ReqBody) (store : List Record) : Response × List Record :=
  if method = .GET ∧ (pathname = "/" ∨ pathname = "/home") then
    (.homePage, store)
  else if method = .GET ∧ pathname = "/plain-text" then
    (.plainText "This is a plain text response.", store)
  else if method = .GET ∧ pathname = "/json" then
    (.json 200 .greetings, store)
  else if method = .GET ∧ pathname = "/echo" then
    (.json 200 (.echoOut (echoHandler queryInput)), store)
  else if method = .GET ∧ leadsWith "/static/".data pathname.data then
    (.staticFile (String.mk (pathname.data.drop 8)), store)
  else
    productsStage method (jsSplitSlash pathname) body store

/-! ## Static file content types (server.js, `staticFileResponse`) -/

/-- Node `path.extname`: the extension of the basename, from its last dot;
empty when the basename has no dot or only a leading dot; `.` and `..` have no
extension. -/
def extname (filePath : String) : String :=
  let base := (filePath.data.reverse.takeWhile (fun c => ¬c = '/')).reverse
  if base = ['.'] ∨ base = ['.', '.'] then ""
  else match findIndex (fun c => c = '.') base.reverse with
    | none => ""
    | some k =>
      let i := base.length - 1 - k
      if i = 0 then "" else String.mk (base.drop i)

/-- `toLowerCase` on one character, restricted to ASCII letters. -/
def jsLowerChar (c : Char) : Char :=
  if 65 ≤ c.toNat ∧ c.toNat ≤ 90 then Char.ofNat (c.toNat + 32) else c

/-- The content-type switch of `staticFileResponse` (server.js lines 243-275):
`path.extname(filePath).toLowerCase()` dispatched through the `switch`
statement; the `default` branch yields `application/octet-stream` (the initial
`text/plain` is overwritten on every branch). -/
def staticContentType (filePath : String) : String :=
  let ext := String.mk ((extname filePath).data.map jsLowerChar)
  if ext = ".html" then "text/html"
  else if ext = ".jpg" then "image/jpeg"
  else if ext = ".jpeg" then "image/jpeg"
  else if ext = ".png" then "image/png"
  else if ext = ".css" then "text/css"
  else if ext = ".js" then "application/javascript"
  else if ext = ".pdf" then "application/pdf"
  else if ext = ".csv" then "text/csv"
  else if ext = ".txt" then "text/plain"
  else "application/octet-stream"

/-! ## Claim-side definitions (from the spec wording, for comparison) -/

/-- Modelled from the claim wording of C2: a syntactically valid integer, an
optional sign followed by at least one decimal digit. -/
def validIntegerString (s : String) : Bool :=
  match s.data with
  | [] => false
  | c :: cs =>
    if c = '+' ∨ c = '-' then ¬cs.isEmpty ∧ cs.all isDigitC
    else (c :: cs).all isDigitC

/-- Modelled from the spec wording of C8: the fixed extension-to-MIME table,
`.jpg`/`.jpeg` listed as two entries, anything else mapped to
`application/octet-stream`. -/
def specContentTypeTable (ext : String) : String :=
  if ext = ".html" then "text/html"
  else if ext = ".jpg" then "image/jpeg"
  else if ext = ".jpeg" then "image/jpeg"
  else if ext = ".png" then "image/png"
  else if ext = ".css" then "text/css"
  else if ext = ".js" then "application/javascript"
  else if ext = ".pdf" then "application/pdf"
  else if ext = ".csv" then "text/csv"
  else if ext = ".txt" then "text/plain"
  else "application/octet-stream"

/-- Claim-side character-level description of ASCII uppercasing (the
character map corresponding to the code-unit map `jsUpperUnit`). -/
def asciiUpperChar (c : Char) : Char :=
  if 97 ≤ c.toNat ∧ c.toNat ≤ 122 then Char.ofNat (c.toNat - 32) else c

example : jsSplitSlash "/products/1001" = ["", "products", "1001"] := by decide
example : jsSplitSlash "/products" = ["", "products"] := by decide
example : jsSplitSlash "" = [""] := by decide
example : handle .GET "/products/1001" none none productsSeed =
    (.json 200 (.okProduct ⟨1001, "T-Shirt", "ABC-1001", 49900⟩), productsSeed) := by decide
example : handle .GET "/products/abc" none none productsSeed =
    (.notFoundHtml, productsSeed) := by decide
example : handle .GET "/products/1001.0" none none productsSeed =
    (.json 200 (.okProduct ⟨1001, "T-Shirt", "ABC-1001", 49900⟩), productsSeed) := by decide
example : handle .GET "/products/9999" none none productsSeed =
    (.json 404 .notFound, productsSeed) := by decide
example : handle .GET "/echo" (some (utf16 "abc")) none productsSeed =
    (.json 200 (.echoOut ⟨utf16 "abc", utf16 "ABC", 3, utf16 "cba"⟩), productsSeed) := by decide
example : extname "public/style.css" = ".css" := by decide
example : extname "public/README" = "" := by decide
example : extname "public/.hidden" = "" := by decide
example : extname "public/a.b.TXT" = ".TXT" := by decide
example : staticContentType "public/a.b.TXT" = "text/plain" := by decide
example : staticContentType "public/archive.tar.gz" = "application/octet-stream" := by decide

example : Product.remove productsSeed 1002 =
    (true, [⟨1001, "T-Shirt", "ABC-1001", 49900⟩, ⟨1003, "Jeans", "ABC-1003", 99900⟩]) := by
  decide

example : Product.update productsSeed 1001 ⟨.absent, .absent, .absent, .val 0⟩ =
    (true, [⟨1001, "T-Shirt", "ABC-1001", 0⟩, ⟨1002, "Cap", "ABC-1002", 19900⟩,
            ⟨1003, "Jeans", "ABC-1003", 99900⟩]) := by
  decide

/-! ## Helper lemmas -/

theorem findIndex_eq_none {p : α → Bool} {l : List α}
    (h : ∀ a ∈ l, p a = false) : findIndex p l = none := by
  induction l with
  | nil => rfl
  | cons a as ih =>
    simp only [findIndex, h a (List.mem_cons_self a as), if_neg]
    simp [ih fun x hx => h x (List.mem_cons_of_mem a hx)]

theorem findIndex_first {p : α → Bool} {l : List α} {i : Nat} (hi : i < l.length)
    (hp : p (l.get ⟨i, hi⟩) = true)
    (hmin : ∀ k : Fin l.length, k.val < i → p (l.get k) = false) :
    findIndex p l = some i := by
  induction l generalizing i with
  | nil => exact absurd hi (by simp)
  | cons a as ih =>
    cases i with
    | zero => simp [findIndex, show p a = true from hp]
    | succ n =>
      have ha : p a = false := hmin ⟨0, by simp⟩ (Nat.succ_pos n)
      simp only [findIndex, ha, if_neg Bool.false_ne_true]
      have := ih (Nat.lt_of_succ_lt_succ hi) hp
        (fun k hk => hmin ⟨k.val + 1, Nat.succ_lt_succ k.isLt⟩ (Nat.succ_lt_succ hk))
      simp [this]

theorem findIndex_lt {p : α → Bool} {l : List α} {i : Nat}
    (h : findIndex p l = some i) : i < l.length := by
  induction l generalizing i with
  | nil => simp [findIndex] at h
  | cons a as ih =>
    by_cases ha : p a
    · simp [findIndex, ha] at h
      simp [← h]
    · simp only [findIndex, ha, if_neg Bool.false_ne_true, Option.map_eq_some'] at h
      obtain ⟨j, hj, rfl⟩ := h
      simpa using Nat.succ_lt_succ (ih hj)

theorem findIndex_mem_some {p : α → Bool} {l : List α}
    (h : ∃ a ∈ l, p a = true) : ∃ i, findIndex p l = some i := by
  induction l with
  | nil => simp at h
  | cons a as ih =>
    by_cases ha : p a
    · exact ⟨0, by simp [findIndex, ha]⟩
    · obtain ⟨x, hx, hpx⟩ := h
      rcases List.mem_cons.mp hx with rfl | hmem
      · exact absurd hpx (by simp [ha])
      · obtain ⟨i, hi⟩ := ih ⟨x, hmem, hpx⟩
        exact ⟨i + 1, by simp [findIndex, ha, hi]⟩

theorem modifyAt_id (i : Nat) (l : List α) : modifyAt (fun a => a) i l = l := by
  induction l generalizing i with
  | nil => cases i <;> rfl
  | cons a as ih =>
    cases i with
    | zero => rfl
    | succ n => simp [modifyAt, ih]

theorem modifyAt_map {f : α → α} {g : α → β} (hfg : ∀ a, g (f a) = g a)
    (i : Nat) (l : List α) : (modifyAt f i l).map g = l.map g := by
  induction l generalizing i with
  | nil => cases i <;> rfl
  | cons a as ih =>
    cases i with
    | zero => simp [modifyAt, hfg]
    | succ n => simp [modifyAt, ih]

theorem modifyAt_eq_set (f : α → α) (i : Nat) (l : List α) (hi : i < l.length) :
    modifyAt f i l = l.set i (f (l.get ⟨i, hi⟩)) := by
  induction l generalizing i with
  | nil => exact absurd hi (by simp)
  | cons a as ih =>
    cases i with
    | zero => rfl
    | succ n =>
      have h2 := ih n (Nat.lt_of_succ_lt_succ hi)
      simp [modifyAt, List.set, h2, List.get_eq_getElem]

theorem mem_eraseIdx {l : List α} {i : Nat} {x : α} (h : x ∈ l.eraseIdx i) :
    ∃ j, ∃ hj : j < l.length, j ≠ i ∧ l.get ⟨j, hj⟩ = x := by
  induction l generalizing i with
  | nil => simp [List.eraseIdx] at h
  | cons a as ih =>
    cases i with
    | zero =>
      simp only [List.eraseIdx] at h
      obtain ⟨j, hx⟩ := List.mem_iff_get.mp h
      exact ⟨j.val + 1, Nat.succ_lt_succ j.isLt, Nat.succ_ne_zero j.val, hx⟩
    | succ n =>
      simp only [List.eraseIdx] at h
      rcases List.mem_cons.mp h with rfl | hmem
      · exact ⟨0, by simp, by simp, rfl⟩
      · obtain ⟨j, hj, hne, hx⟩ := ih hmem
        exact ⟨j + 1, Nat.succ_lt_succ hj, fun hc => hne (Nat.succ_injective hc), hx⟩

theorem takeWhile_all {p : α → Bool} {l : List α} (h : ∀ a ∈ l, p a = true) :
    l.takeWhile p = l := by
  induction l with
  | nil => rfl
  | cons a as ih =>
    simp only [List.takeWhile, h a (List.mem_cons_self a as)]
    simp [ih fun x hx => h x (List.mem_cons_of_mem a hx)]

theorem dropWhile_all {p : α → Bool} {l : List α} (h : ∀ a ∈ l, p a = true) :
    l.dropWhile p = [] := by
  induction l with
  | nil => rfl
  | cons a as ih =>
    simp only [List.dropWhile, h a (List.mem_cons_self a as)]
    exact ih fun x hx => h x (List.mem_cons_of_mem a hx)

theorem trimLeftWs_all {l : List Char} (h : ∀ c ∈ l, isJsWs c = false) :
    trimLeftWs l = l := by
  cases l with
  | nil => rfl
  | cons c cs => simp [trimLeftWs, h c (List.mem_cons_self c cs)]

/-! ## Claims about the store operations -/

/-- Claim C3: for every id and store state, when no record has the id,
`remove(id)` returns false and the store is exactly unchanged; when some
record has the id, it returns true and the store afterwards is the original
sequence with exactly the first matching record spliced out. -/
theorem claim3_remove_spec (store : List Record) (id : Int) :
    ((∀ r ∈ store, r.id ≠ id) → Product.remove store id = (false, store)) ∧
    (∀ i : Nat, ∀ hi : i < store.length, (store.get ⟨i, hi⟩).id = id →
      (∀ k : Fin store.length, k.val < i → (store.get k).id ≠ id) →
      Product.remove store id = (true, store.eraseIdx i)) := by
  constructor
  · intro h
    unfold Product.remove
    rw [findIndex_eq_none fun r hr => by simp [h r hr]]
  · intro i hi hid hmin
    unfold Product.remove
    rw [findIndex_first hi (by simpa using hid) fun k hk => by simpa using hmin k hk]

/-- Witness for C3 at the seed store: id 9999 is absent, id 1002 sits first at
index 1. -/
theorem claim3_witness :
    Product.remove productsSeed 9999 = (false, productsSeed) ∧
    Product.remove productsSeed 1002 = (true, productsSeed.eraseIdx 1) :=
  ⟨(claim3_remove_spec productsSeed 9999).1 (by decide),
   (claim3_remove_spec productsSeed 1002).2 1 (by decide) (by decide) (by decide)⟩

/-- Claim C6: for an id present exactly once, `remove(id)` succeeds and a
subsequent `getById(id)` yields absent; at the HTTP level,
DELETE /products/1001 then GET /products/1001 yields 404. -/
theorem claim6_remove_then_getById (store : List Record) (id : Int) :
    (∀ i : Nat, ∀ hi : i < store.length, (store.get ⟨i, hi⟩).id = id →
      (∀ j : Fin store.length, j.val ≠ i → (store.get j).id ≠ id) →
      (Product.remove store id).1 = true ∧
      Product.getById (Product.remove store id).2 id = none) ∧
    handle .DELETE "/products/1001" none none productsSeed =
      (.json 200 .okOnly,
       [⟨1002, "Cap", "ABC-1002", 19900⟩, ⟨1003, "Jeans", "ABC-1003", 99900⟩]) ∧
    handle .GET "/products/1001" none none
        [⟨1002, "Cap", "ABC-1002", 19900⟩, ⟨1003, "Jeans", "ABC-1003", 99900⟩] =
      (.json 404 .notFound,
       [⟨1002, "Cap", "ABC-1002", 19900⟩, ⟨1003, "Jeans", "ABC-1003", 99900⟩]) := by
  refine ⟨?_, by decide, by decide⟩
  intro i hi hid huniq
  have hfirst : findIndex (fun p => p.id == id) store = some i :=
    findIndex_first hi (by simpa using hid) fun k hk => by
      simpa using huniq k (Nat.ne_of_lt hk)
  unfold Product.remove
  rw [hfirst]
  refine ⟨rfl, ?_⟩
  unfold Product.getById
  rw [List.find?_eq_none]
  intro x hx
  obtain ⟨j, hj, hne, hget⟩ := mem_eraseIdx hx
  have hxid := huniq ⟨j, hj⟩ hne
  rw [← hget]
  simpa using hxid

/-- Witness for C6: removing seed id 1001 (present once, at index 0). -/
theorem claim6_witness :
    (Product.remove productsSeed 1001).1 = true ∧
    Product.getById (Product.remove productsSeed 1001).2 1001 = none :=
  (claim6_remove_then_getById productsSeed 1001).1 0 (by decide) (by decide) (by decide)

/-- Claim C7: `update(id, {})` (all fields absent) returns true and leaves
every record of the store unchanged, whenever the id is present. -/
theorem claim7_empty_patch (store : List Record) (id : Int)
    (h : ∃ r ∈ store, r.id = id) :
    Product.update store id ⟨.absent, .absent, .absent, .absent⟩ = (true, store) := by
  obtain ⟨r, hr, hid⟩ := h
  obtain ⟨i, hfi⟩ := findIndex_mem_some (p := fun p : Record => p.id == id)
    ⟨r, hr, by simp [hid]⟩
  unfold Product.update
  rw [hfi]
  exact congrArg _ (modifyAt_id i store)

/-- Witness for C7 at seed id 1003. -/
theorem claim7_witness :
    Product.update productsSeed 1003 ⟨.absent, .absent, .absent, .absent⟩ =
      (true, productsSeed) :=
  claim7_empty_patch productsSeed 1003 (by decide)

/-- Claim C9: a field of the PATCH body that is present but explicitly null is
treated like an absent field: the corresponding stored column is unchanged,
and `update` still returns true. -/
theorem claim9_null_treated_as_absent (store : List Record) (id : Int)
    (data : PatchData) (h : ∃ r ∈ store, r.id = id) :
    (Product.update store id data).1 = true ∧
    (data.title = .null →
      (Product.update store id data).2.map Record.title = store.map Record.title) ∧
    (data.sku = .null →
      (Product.update store id data).2.map Record.sku = store.map Record.sku) ∧
    (data.price = .null →
      (Product.update store id data).2.map Record.price = store.map Record.price) := by
  obtain ⟨r, hr, hid⟩ := h
  obtain ⟨i, hfi⟩ := findIndex_mem_some (p := fun p : Record => p.id == id)
    ⟨r, hr, by simp [hid]⟩
  unfold Product.update
  rw [hfi]
  refine ⟨rfl, ?_, ?_, ?_⟩ <;> intro hnull <;>
    exact modifyAt_map (fun p => by simp [hnull, JsField.coalesce]) i store

/-- Witness for C9: a body whose title/sku/price are all explicitly null
leaves the titles unchanged and returns true. -/
theorem claim9_witness :
    (Product.update productsSeed 1002 ⟨.absent, .null, .null, .null⟩).1 = true ∧
    (Product.update productsSeed 1002 ⟨.absent, .null, .null, .null⟩).2.map Record.title =
      productsSeed.map Record.title :=
  ⟨(claim9_null_treated_as_absent productsSeed 1002 ⟨.absent, .null, .null, .null⟩
      (by decide)).1,
   (claim9_null_treated_as_absent productsSeed 1002 ⟨.absent, .null, .null, .null⟩
      (by decide)).2.1 rfl⟩

/-- Claim C10: `update` never changes any record's id, even when the PATCH
body carries an `id` field, so the sequence (hence multiset) of stored ids is
invariant. -/
theorem claim10_update_preserves_ids (store : List Record) (id : Int)
    (data : PatchData) :
    (Product.update store id data).2.map Record.id = store.map Record.id ∧
    ((Product.update store id data).2.map Record.id : Multiset Int) =
      (store.map Record.id : Multiset Int) := by
  have hmap : (Product.update store id data).2.map Record.id = store.map Record.id := by
    unfold Product.update
    cases hfi : findIndex (fun p : Record => p.id == id) store with
    | none => rfl
    | some i =>
      exact modifyAt_map (f := fun r =>
        { r with
          title := data.title.coalesce r.title
          sku := data.sku.coalesce r.sku
          price := data.price.coalesce r.price }) (g := Record.id) (fun p => rfl) i store
  exact ⟨hmap, by rw [hmap]⟩

/-- Claim C1 (amended): for an id present in the store, `update(id, partial)`
returns true and rewrites exactly the first matching record: each of
title/sku/price takes the partial's value when that field carries a non-null
value, and keeps the stored value when the field is absent or null (so an
explicit `price: 0` is applied); all other records, and the record's id, are
untouched; for an absent id it returns false and changes nothing. -/
theorem claim1_update_fields (store : List Record) (id : Int) (data : PatchData) :
    ((∀ r ∈ store, r.id ≠ id) → Product.update store id data = (false, store)) ∧
    (∀ i : Nat, ∀ hi : i < store.length, (store.get ⟨i, hi⟩).id = id →
      (∀ k : Fin store.length, k.val < i → (store.get k).id ≠ id) →
      Product.update store id data =
        (true, store.set i
          { id := (store.get ⟨i, hi⟩).id
            title := match data.title with
              | .val v => v
              | .null => (store.get ⟨i, hi⟩).title
              | .absent => (store.get ⟨i, hi⟩).title
            sku := match data.sku with
              | .val v => v
              | .null => (store.get ⟨i, hi⟩).sku
              | .absent => (store.get ⟨i, hi⟩).sku
            price := match data.price with
              | .val v => v
              | .null => (store.get ⟨i, hi⟩).price
              | .absent => (store.get ⟨i, hi⟩).price })) := by
  constructor
  · intro h
    unfold Product.update
    rw [findIndex_eq_none fun r hr => by simp [h r hr]]
  · intro i hi hid hmin
    unfold Product.update
    rw [findIndex_first hi (by simpa using hid) fun k hk => by simpa using hmin k hk]
    show (true, modifyAt (fun r =>
      { r with
        title := data.title.coalesce r.title
        sku := data.sku.coalesce r.sku
        price := data.price.coalesce r.price }) i store) = _
    rw [modifyAt_eq_set _ i store hi]
    rcases data with ⟨di, dt, ds, dp⟩
    cases dt <;> cases ds <;> cases dp <;> rfl

/-- Witness for C1 at the seed store: an explicit `price: 0` on id 1001 is
applied exactly. -/
theorem claim1_witness :
    Product.update productsSeed 1001 ⟨.absent, .absent, .absent, .val 0⟩ =
      (true, productsSeed.set 0 ⟨1001, "T-Shirt", "ABC-1001", 0⟩) :=
  (claim1_update_fields productsSeed 1001 ⟨.absent, .absent, .absent, .val 0⟩).2
    0 (by decide) (by decide) (by decide)

/-- Claim C1 as stated is false on the code: in `{title: null}` the field
`title` is present (non-absent), yet `update` overwrites nothing — the store
is returned exactly unchanged (while still returning true), because `??`
treats an explicit null like an absent field. -/
theorem claim1_counterexample :
    (⟨JsField.absent, JsField.null, JsField.absent, JsField.absent⟩ : PatchData).title ≠
      JsField.absent ∧
    Product.update productsSeed 1001
      ⟨JsField.absent, JsField.null, JsField.absent, JsField.absent⟩ =
      (true, productsSeed) := by
  decide

/-- Claim C5: after `add(r)` into a store with no record sharing `r.id`,
`getById(r.id)` returns `r` itself; at the HTTP level, POST /products with the
record `{id: 2000, title: Hat, sku: X-1, price: 1000}` answers 201 and a
subsequent GET /products/2000 answers 200 with that record. -/
theorem claim5_add_then_getById (store : List Record) (r : Record)
    (h : ∀ s ∈ store, s.id ≠ r.id) :
    Product.getById (Product.add store r) r.id = some r ∧
    handle .POST "/products" none (some (.product ⟨2000, "Hat", "X-1", 1000⟩)) productsSeed =
      (.json 201 .created, Product.add productsSeed ⟨2000, "Hat", "X-1", 1000⟩) ∧
    handle .GET "/products/2000" none none
        (Product.add productsSeed ⟨2000, "Hat", "X-1", 1000⟩) =
      (.json 200 (.okProduct ⟨2000, "Hat", "X-1", 1000⟩),
       Product.add productsSeed ⟨2000, "Hat", "X-1", 1000⟩) := by
  refine ⟨?_, by decide, by decide⟩
  have key : ∀ l : List Record, (∀ s ∈ l, s.id ≠ r.id) →
      List.find? (fun q => q.id == r.id) (l ++ [r]) = some r := by
    intro l
    induction l with
    | nil => intro _; simp [List.find?]
    | cons s ss ih =>
      intro hl
      have hs : (s.id == r.id) = false := by simp [hl s (List.mem_cons_self s ss)]
      simp only [List.cons_append, List.find?, hs]
      exact ih fun x hx => hl x (List.mem_cons_of_mem s hx)
  exact key store h

/-- Witness for C5: adding the Hat record to the seed store. -/
theorem claim5_witness :
    Product.getById (Product.add productsSeed ⟨2000, "Hat", "X-1", 1000⟩) 2000 =
      some ⟨2000, "Hat", "X-1", 1000⟩ :=
  (claim5_add_then_getById productsSeed ⟨2000, "Hat", "X-1", 1000⟩ (by decide)).1

/-! ## Helper lemmas about `jsToNumber` on valid integer strings -/

theorem isDigitC_ne {c d : Char} (hc : isDigitC c = true)
    (hd : d.toNat < 48 ∨ 57 < d.toNat) : c ≠ d := by
  intro h
  subst h
  simp [isDigitC] at hc
  omega

theorem isDigitC_not_ws {c : Char} (hc : isDigitC c = true) : isJsWs c = false := by
  simp [isDigitC] at hc
  simp [isJsWs]
  omega

theorem parseUnsignedDec_digits {ds : List Char} (hne : ds ≠ [])
    (hd : ∀ c ∈ ds, isDigitC c = true) :
    parseUnsignedDec ds = some (.num ⟨digitsToNat ds, 0⟩) := by
  have hinf : ds ≠ ['I', 'n', 'f', 'i', 'n', 'i', 't', 'y'] := by
    intro hcontra
    have hI := hd 'I' (by rw [hcontra]; exact List.mem_cons_self _ _)
    simp [isDigitC] at hI
  have hemp : ds.isEmpty = false := by
    cases ds with
    | nil => exact absurd rfl hne
    | cons x xs => rfl
  unfold parseUnsignedDec
  rw [if_neg hinf, takeWhile_all hd, dropWhile_all hd]
  simp [hemp]

theorem parseStrNumeric_digits {ds : List Char} (hne : ds ≠ [])
    (hd : ∀ c ∈ ds, isDigitC c = true) :
    parseStrNumeric ds = some (.num ⟨digitsToNat ds, 0⟩) := by
  have hsd : parseSignedDec ds = parseUnsignedDec ds := by
    cases ds with
    | nil => exact absurd rfl hne
    | cons c rest =>
      have hc := hd c (List.mem_cons_self c rest)
      have h1 : c ≠ '+' := isDigitC_ne hc (by decide)
      have h2 : c ≠ '-' := isDigitC_ne hc (by decide)
      simp [parseSignedDec, h1, h2]
  cases ds with
  | nil => exact absurd rfl hne
  | cons c0 rest =>
    cases rest with
    | nil =>
      show parseSignedDec [c0] = _
      rw [hsd]
      exact parseUnsignedDec_digits hne hd
    | cons c1 rest2 =>
      have hc1 := hd c1 (List.mem_cons_of_mem c0 (List.mem_cons_self c1 rest2))
      have hx1 : c1 ≠ 'x' := isDigitC_ne hc1 (by decide)
      have hx2 : c1 ≠ 'X' := isDigitC_ne hc1 (by decide)
      have ho1 : c1 ≠ 'o' := isDigitC_ne hc1 (by decide)
      have ho2 : c1 ≠ 'O' := isDigitC_ne hc1 (by decide)
      have hb1 : c1 ≠ 'b' := isDigitC_ne hc1 (by decide)
      have hb2 : c1 ≠ 'B' := isDigitC_ne hc1 (by decide)
      have hres : parseStrNumeric (c0 :: c1 :: rest2) = parseSignedDec (c0 :: c1 :: rest2) := by
        simp [parseStrNumeric, hx1, hx2, ho1, ho2, hb1, hb2]
      rw [hres, hsd]
      exact parseUnsignedDec_digits hne hd

theorem parseStrNumeric_signed_digits {c : Char} {ds : List Char}
    (hsign : c = '+' ∨ c = '-') (hne : ds ≠ [])
    (hd : ∀ x ∈ ds, isDigitC x = true) :
    ∃ m : Int, parseStrNumeric (c :: ds) = some (.num ⟨m, 0⟩) ∧
      m.natAbs = digitsToNat ds := by
  cases ds with
  | nil => exact absurd rfl hne
  | cons d ds2 =>
    have hc0 : c ≠ '0' := by
      rcases hsign with rfl | rfl <;> decide
    have hred : parseStrNumeric (c :: d :: ds2) = parseSignedDec (c :: d :: ds2) := by
      simp [parseStrNumeric, hc0]
    rw [hred]
    rcases hsign with rfl | rfl
    · refine ⟨digitsToNat (d :: ds2), ?_, by simp⟩
      show parseSignedDec ('+' :: d :: ds2) = _
      simp only [parseSignedDec, if_pos rfl]
      exact parseUnsignedDec_digits hne hd
    · refine ⟨-(digitsToNat (d :: ds2) : Int), ?_, by simp⟩
      show parseSignedDec ('-' :: d :: ds2) = _
      have hpm : ('-' : Char) ≠ '+' := by decide
      simp only [parseSignedDec, if_neg hpm, if_pos rfl,
        parseUnsignedDec_digits hne hd]
      rfl

theorem log2Fuel_spec : ∀ fuel n, 1 ≤ n → n ≤ fuel →
    2 ^ log2Fuel fuel n ≤ n ∧ n < 2 ^ (log2Fuel fuel n + 1) := by
  intro fuel
  induction fuel with
  | zero => intro n h1 h2; omega
  | succ f ih =>
    intro n h1 h2
    have h64 : (2 : Nat) ^ 64 = 18446744073709551616 := by norm_num
    by_cases hbig : 2 ^ 64 ≤ n
    · have hm1 : 1 ≤ n / 2 ^ 64 := by
        rw [h64] at hbig ⊢
        omega
      have hm2 : n / 2 ^ 64 ≤ f := by
        rw [h64] at hbig ⊢
        omega
      have hrec := ih (n / 2 ^ 64) hm1 hm2
      simp only [log2Fuel, if_pos hbig]
      constructor
      · calc 2 ^ (log2Fuel f (n / 2 ^ 64) + 64)
            = 2 ^ log2Fuel f (n / 2 ^ 64) * 2 ^ 64 := by ring
          _ ≤ (n / 2 ^ 64) * 2 ^ 64 := Nat.mul_le_mul_right _ hrec.1
          _ ≤ n := Nat.div_mul_le_self n _
      · have hub : n < (n / 2 ^ 64 + 1) * 2 ^ 64 := by
          rw [h64]
          omega
        calc n < (n / 2 ^ 64 + 1) * 2 ^ 64 := hub
          _ ≤ 2 ^ (log2Fuel f (n / 2 ^ 64) + 1) * 2 ^ 64 :=
              Nat.mul_le_mul_right _ (Nat.succ_le_of_lt hrec.2)
          _ = 2 ^ (log2Fuel f (n / 2 ^ 64) + 64 + 1) := by ring
    · by_cases h2n : 2 ≤ n
      · have hm1 : 1 ≤ n / 2 := by omega
        have hm2 : n / 2 ≤ f := by omega
        have hrec := ih (n / 2) hm1 hm2
        simp only [log2Fuel, if_neg hbig, if_pos h2n]
        constructor
        · calc 2 ^ (log2Fuel f (n / 2) + 1) = 2 ^ log2Fuel f (n / 2) * 2 := by ring
            _ ≤ (n / 2) * 2 := Nat.mul_le_mul_right _ hrec.1
            _ ≤ n := by omega
        · have hub : n < (n / 2 + 1) * 2 := by omega
          calc n < (n / 2 + 1) * 2 := hub
            _ ≤ 2 ^ (log2Fuel f (n / 2) + 1) * 2 :=
                Nat.mul_le_mul_right _ (Nat.succ_le_of_lt hrec.2)
            _ = 2 ^ (log2Fuel f (n / 2) + 1 + 1) := by ring
      · have hn1 : n = 1 := by omega
        subst hn1
        simp only [log2Fuel, if_neg hbig, if_neg h2n]
        norm_num

theorem intLog2_spec {n : Nat} (h : 1 ≤ n) :
    2 ^ intLog2 n ≤ n ∧ n < 2 ^ (intLog2 n + 1) :=
  log2Fuel_spec n n h (Nat.le_refl n)

theorem foldl_digits_lt : ∀ (ds : List Char) (a : Nat),
    (∀ c ∈ ds, isDigitC c = true) →
    List.foldl (fun x c => 10 * x + (c.toNat - 48)) a ds < (a + 1) * 10 ^ ds.length := by
  intro ds
  induction ds with
  | nil => intro a _; simp
  | cons c cs ih =>
    intro a h
    have hc : c.toNat - 48 ≤ 9 := by
      have hc2 := h c (List.mem_cons_self c cs)
      simp [isDigitC] at hc2
      omega
    simp only [List.foldl_cons, List.length_cons]
    calc List.foldl (fun x c => 10 * x + (c.toNat - 48)) (10 * a + (c.toNat - 48)) cs
        < (10 * a + (c.toNat - 48) + 1) * 10 ^ cs.length :=
          ih _ (fun x hx => h x (List.mem_cons_of_mem c hx))
      _ ≤ ((a + 1) * 10) * 10 ^ cs.length := Nat.mul_le_mul_right _ (by omega)
      _ = (a + 1) * 10 ^ (cs.length + 1) := by ring

theorem digitsToNat_lt {ds : List Char} (h : ∀ c ∈ ds, isDigitC c = true) :
    digitsToNat ds < 10 ^ ds.length := by
  have hf := foldl_digits_lt ds 0 h
  simpa [digitsToNat, radixToNat] using hf

theorem roundQuot_exact {A B : Nat} (hB : 0 < B) (hdvd : B ∣ A) :
    roundQuot A B = A / B := by
  obtain ⟨c, rfl⟩ := hdvd
  simp [roundQuot, Nat.mul_mod_right, hB]

theorem f64ND_int (m : Int) : f64ND ⟨m, 0⟩ = (m.natAbs, 1) := by
  simp [f64ND]

theorem intLog2_one : intLog2 1 = 0 := by decide

theorem f64k_int {n : Nat} (h1 : 1 ≤ n) : f64k n 1 = intLog2 n := by
  have hs := intLog2_spec h1
  simp only [f64k, intLog2_one, Nat.cast_zero, sub_zero]
  rw [if_pos]
  unfold le2pow
  rw [if_pos (Int.natCast_nonneg _)]
  simp [hs.1]

theorem f64s_int {n : Nat} (h1 : 1 ≤ n) : f64s n 1 = (intLog2 n : Int) - 52 := by
  rw [f64s, f64k_int h1]
  omega

theorem roundF64_int_small {m : Int} (hm : m.natAbs < 2 ^ 53) :
    (roundF64 ⟨m, 0⟩).isIntegerNum = true := by
  by_cases hz : m = 0
  · subst hz
    decide
  · have h1 : 1 ≤ m.natAbs := Int.natAbs_pos.mpr hz
    have hs := intLog2_spec h1
    have hL52 : intLog2 m.natAbs ≤ 52 := by
      by_contra hcon
      push_neg at hcon
      have hp : (2 : Nat) ^ 53 ≤ 2 ^ intLog2 m.natAbs :=
        Nat.pow_le_pow_right (by norm_num) hcon
      omega
    have hsv := f64s_int h1
    have ht : (-((intLog2 m.natAbs : Int) - 52)).toNat = 52 - intLog2 m.natAbs := by
      omega
    have hM : f64M m.natAbs 1 = m.natAbs * 2 ^ (52 - intLog2 m.natAbs) := by
      by_cases hL : intLog2 m.natAbs = 52
      · rw [f64M, hsv, hL]
        norm_num
        rw [roundQuot_exact (by norm_num) (one_dvd _)]
        simp
      · rw [f64M, hsv, if_neg (by omega), ht,
          roundQuot_exact (by norm_num) (one_dvd _), Nat.div_one]
    have hMlt : f64M m.natAbs 1 < 2 ^ 53 := by
      rw [hM]
      calc m.natAbs * 2 ^ (52 - intLog2 m.natAbs)
          < 2 ^ (intLog2 m.natAbs + 1) * 2 ^ (52 - intLog2 m.natAbs) :=
            (Nat.mul_lt_mul_right (Nat.pos_pow_of_pos _ (by norm_num))).mpr hs.2
        _ = 2 ^ (intLog2 m.natAbs + 1 + (52 - intLog2 m.natAbs)) :=
            (Nat.pow_add 2 _ _).symm
        _ ≤ 2 ^ 53 := Nat.pow_le_pow_right (by norm_num) (by omega)
    have hov : ¬(0 ≤ f64s m.natAbs 1 ∧
        2 ^ 1024 ≤ f64M m.natAbs 1 * 2 ^ (f64s m.natAbs 1).toNat) := by
      rintro ⟨hc1, hc2⟩
      rw [hsv] at hc1 hc2
      have hL : intLog2 m.natAbs = 52 := by omega
      rw [hL] at hc2
      norm_num at hc2
      have : (2 : Nat) ^ 53 ≤ 2 ^ 1024 := Nat.pow_le_pow_right (by norm_num) (by norm_num)
      omega
    rw [show (roundF64 ⟨m, 0⟩ : JSDouble) =
        (if 0 ≤ f64s m.natAbs 1 ∧
            2 ^ 1024 ≤ f64M m.natAbs 1 * 2 ^ (f64s m.natAbs 1).toNat then
          if m < 0 then .negInf else .posInf
        else
          .num ⟨if m < 0 then -(f64M m.natAbs 1 : Int) else (f64M m.natAbs 1 : Int),
                f64s m.natAbs 1⟩) from by
      simp [roundF64, hz, f64ND_int]]
    rw [if_neg hov]
    by_cases hL : intLog2 m.natAbs = 52
    · simp only [JSDouble.isIntegerNum, hsv, hL]
      norm_num
    · have hneg : ¬(0 ≤ f64s m.natAbs 1) := by
        rw [hsv]
        omega
      simp only [JSDouble.isIntegerNum, if_neg hneg, hsv, ht, hM]
      have hdint : ((2 ^ (52 - intLog2 m.natAbs) : Nat) : Int) ∣
          ((m.natAbs * 2 ^ (52 - intLog2 m.natAbs) : Nat) : Int) :=
        Int.natCast_dvd_natCast.mpr (dvd_mul_left _ _)
      have hmod : (if m < 0 then -((m.natAbs * 2 ^ (52 - intLog2 m.natAbs) : Nat) : Int)
          else ((m.natAbs * 2 ^ (52 - intLog2 m.natAbs) : Nat) : Int)) %
          ((2 ^ (52 - intLog2 m.natAbs) : Nat) : Int) = 0 := by
        by_cases hmneg : m < 0
        · rw [if_pos hmneg]
          exact Int.emod_eq_zero_of_dvd (dvd_neg.mpr hdint)
        · rw [if_neg hmneg]
          exact Int.emod_eq_zero_of_dvd hdint
      rw [hmod]
      split <;> rfl

theorem jsToNumber_valid_int {s : String} (h : validIntegerString s = true)
    (hlen : s.length ≤ 15) : (jsToNumber s).isIntegerNum = true := by
  unfold validIntegerString at h
  cases hS : s.data with
  | nil => rw [hS] at h; simp at h
  | cons c cs =>
    rw [hS] at h
    have hsl : s.length = cs.length + 1 := by
      rw [show s.length = s.data.length from rfl, hS]
      rfl
    have h3 : (if c = '+' ∨ c = '-' then
        decide (¬cs.isEmpty = true ∧ cs.all isDigitC = true)
      else (c :: cs).all isDigitC) = true := h
    by_cases hsign : c = '+' ∨ c = '-'
    · rw [if_pos hsign] at h3
      simp only [decide_eq_true_eq] at h3
      obtain ⟨hne, hall⟩ := h3
      have hne2 : cs ≠ [] := by
        cases cs with
        | nil => simp at hne
        | cons x xs => exact List.cons_ne_nil x xs
      have hdig : ∀ x ∈ cs, isDigitC x = true := by
        intro x hx
        exact List.all_eq_true.mp hall x hx
      have hnw : ∀ x ∈ c :: cs, isJsWs x = false := by
        intro x hx
        rcases List.mem_cons.mp hx with rfl | hmem
        · rcases hsign with rfl | rfl <;> decide
        · exact isDigitC_not_ws (hdig x hmem)
      unfold jsToNumber
      rw [hS, trimLeftWs_all (fun x hx => hnw x (List.mem_reverse.mp hx)),
        List.reverse_reverse, trimLeftWs_all hnw]
      obtain ⟨m, hm, habs⟩ := parseStrNumeric_signed_digits hsign hne2 hdig
      have hbound : m.natAbs < 2 ^ 53 := by
        rw [habs]
        have hlt := digitsToNat_lt hdig
        have hpow : (10 : Nat) ^ cs.length ≤ 10 ^ 14 :=
          Nat.pow_le_pow_right (by norm_num) (by omega)
        have hcmp : (10 : Nat) ^ 14 < 2 ^ 53 := by norm_num
        omega
      simp [hm, JSNum.toDouble, roundF64_int_small hbound]
    · rw [if_neg hsign] at h3
      have hdig : ∀ x ∈ c :: cs, isDigitC x = true := fun x hx =>
        List.all_eq_true.mp h3 x hx
      have hnw : ∀ x ∈ c :: cs, isJsWs x = false := fun x hx =>
        isDigitC_not_ws (hdig x hx)
      unfold jsToNumber
      rw [hS, trimLeftWs_all (fun x hx => hnw x (List.mem_reverse.mp hx)),
        List.reverse_reverse, trimLeftWs_all hnw]
      have hbound : ((digitsToNat (c :: cs) : Int)).natAbs < 2 ^ 53 := by
        rw [Int.natAbs_ofNat]
        have hlt := digitsToNat_lt hdig
        have hpow : (10 : Nat) ^ (c :: cs).length ≤ 10 ^ 15 :=
          Nat.pow_le_pow_right (by norm_num) (by simp; omega)
        have hcmp : (10 : Nat) ^ 15 < 2 ^ 53 := by norm_num
        omega
      simp [parseStrNumeric_digits (List.cons_ne_nil c cs) hdig, JSNum.toDouble,
        roundF64_int_small hbound]

/-! ## Claims about the router -/

/-- Claim C2 (amended): for a path splitting into `['', 'products', seg]`, the
item-level routes (GET/PATCH/DELETE) match exactly when `Number(seg)` is an
integer-valued finite double (`Number.isInteger(Number(seg))`), and otherwise
the request falls through to the 404 HTML fallback.  Every syntactically valid
integer segment of at most 15 characters matches (its value is exactly
representable in binary64), but integer syntax is neither necessary nor
sufficient in general: `1001.0`, `1e2`, `0x3e9`, the empty segment, and the
underflowing `1e-400` (which becomes the integer 0) also match, while a
310-digit integer segment overflows to `Infinity` and falls through to the
404 HTML fallback. -/
theorem claim2_item_routes (p0 seg : String) (b : Option ReqBody)
    (store : List Record) :
    (validIntegerString seg = true → seg.length ≤ 15 →
      (jsToNumber seg).isIntegerNum = true) ∧
    (productsStage .GET [p0, "products", seg] b store =
      if (jsToNumber seg).isIntegerNum = true then
        match Product.getById store (jsToNumber seg).intVal with
        | none => (.json 404 .notFound, store)
        | some product => (.json 200 (.okProduct product), store)
      else (.notFoundHtml, store)) ∧
    (productsStage .PATCH [p0, "products", seg] b store =
      if (jsToNumber seg).isIntegerNum = true then
        match b with
        | some (.patch p) =>
          match Product.update store (jsToNumber seg).intVal p with
          | (false, store2) => (.json 404 .notFound, store2)
          | (true, store2) => (.json 200 .okOnly, store2)
        | _ => (.bodyFailure, store)
      else (.notFoundHtml, store)) ∧
    (productsStage .DELETE [p0, "products", seg] b store =
      if (jsToNumber seg).isIntegerNum = true then
        match Product.remove store (jsToNumber seg).intVal with
        | (false, store2) => (.json 404 .notFound, store2)
        | (true, store2) => (.json 200 .okOnly, store2)
      else (.notFoundHtml, store)) ∧
    productsStage .GET ["", "products", "1e-400"] none productsSeed =
      (.json 404 .notFound, productsSeed) ∧
    productsStage .GET ["", "products", String.mk (List.replicate 310 '9')] none productsSeed =
      (.notFoundHtml, productsSeed) := by
  refine ⟨fun h hl => jsToNumber_valid_int h hl, ?_, ?_, ?_, by decide, by decide⟩ <;>
  · by_cases hInt : (jsToNumber seg).isIntegerNum = true
    · simp [productsStage, hInt]
    · simp [productsStage, hInt]

/-- Claim C2 as stated is false on the code: the segment `1001.0` is not a
syntactically valid integer, yet GET /products/1001.0 matches the item-level
route and answers 200 with the T-Shirt record — not the 404 HTML fallback —
because `Number('1001.0')` is the integer 1001. -/
theorem claim2_counterexample :
    validIntegerString "1001.0" = false ∧
    handle .GET "/products/1001.0" none none productsSeed =
      (.json 200 (.okProduct ⟨1001, "T-Shirt", "ABC-1001", 49900⟩), productsSeed) := by
  decide

/-- Witness for C2: the valid integer segment `42` satisfies the route
guard. -/
theorem claim2_witness : (jsToNumber "42").isIntegerNum = true :=
  (claim2_item_routes "" "42" none productsSeed).1 (by decide) (by decide)

/-! ## Claims about the echo route -/


theorem toNat_ofNat_valid {n : Nat} (h : n < 55296) : (Char.ofNat n).toNat = n := by
  have hv : n.isValidChar := Or.inl h
  rw [Char.ofNat, dif_pos hv]
  simp [Char.ofNatAux, Char.toNat, UInt32.toNat, UInt32.ofNatCore]

theorem jsUpperUnit_toNat (c : Char) :
    jsUpperUnit c.toNat = (asciiUpperChar c).toNat := by
  unfold jsUpperUnit asciiUpperChar
  by_cases hc : 97 ≤ c.toNat ∧ c.toNat ≤ 122
  · rw [if_pos hc, if_pos hc, toNat_ofNat_valid (by omega)]
  · rw [if_neg hc, if_neg hc]

theorem asciiUpperChar_bmp {c : Char} (h : c.toNat < 65536) :
    (asciiUpperChar c).toNat < 65536 := by
  unfold asciiUpperChar
  by_cases hc : 97 ≤ c.toNat ∧ c.toNat ≤ 122
  · rw [if_pos hc, toNat_ofNat_valid (by omega)]
    omega
  · rwa [if_neg hc]

theorem concatMap_utf16_bmp {l : List Char} (h : ∀ c ∈ l, c.toNat < 65536) :
    concatMap utf16Units l = l.map Char.toNat := by
  induction l with
  | nil => rfl
  | cons c cs ih =>
    have hc := h c (List.mem_cons_self c cs)
    simp [concatMap, utf16Units, hc, ih fun x hx => h x (List.mem_cons_of_mem c hx)]

theorem echoHandler_some_of_ne {u : JSStr} (h : u.isEmpty = false) :
    echoHandler (some u) = ⟨u, u.map jsUpperUnit, u.length, u.reverse⟩ := by
  unfold echoHandler
  simp [h]

/-- One character yields at least one UTF-16 code unit. -/
theorem utf16Units_ne_nil (c : Char) : utf16Units c ≠ [] := by
  unfold utf16Units
  split <;> simp

/-- Claim C4 (amended): for every nonempty string supplied as the `input`
query parameter, GET /echo returns `normal` verbatim, `characterCount` equal
to the number of UTF-16 code units of the input, and `backwards` equal to the
reversal of its UTF-16 code units; for inputs of BMP characters only (every
code point below 0x10000) these coincide with the length in characters and
the character reversal, and otherwise diverge from them; `shouty` is the
input uppercased (stated for ASCII inputs, on which JS `toUpperCase` is
exactly ASCII uppercasing); an absent or empty input falls back to `Hello`,
and `GET /echo?input=abc` yields
`{normal: abc, shouty: ABC, characterCount: 3, backwards: cba}`. -/
theorem claim4_echo (s : String) (hne : s.data ≠ []) :
    ((echoHandler (some (utf16 s))).normal = utf16 s ∧
     (echoHandler (some (utf16 s))).characterCount = (utf16 s).length ∧
     (echoHandler (some (utf16 s))).backwards = (utf16 s).reverse) ∧
    ((∀ c ∈ s.data, c.toNat < 65536) →
      (echoHandler (some (utf16 s))).characterCount = s.length ∧
      (echoHandler (some (utf16 s))).backwards = utf16 (String.mk (s.data.reverse))) ∧
    ((∀ c ∈ s.data, c.toNat < 128) →
      (echoHandler (some (utf16 s))).shouty =
        utf16 (String.mk (s.data.map asciiUpperChar))) ∧
    echoHandler none = echoHandler (some (utf16 "Hello")) ∧
    echoHandler (some (utf16 "")) = echoHandler (some (utf16 "Hello")) ∧
    handle .GET "/echo" (some (utf16 "abc")) none productsSeed =
      (.json 200 (.echoOut ⟨utf16 "abc", utf16 "ABC", 3, utf16 "cba"⟩),
       productsSeed) := by
  have hune : utf16 s ≠ [] := by
    unfold utf16
    cases hS : s.data with
    | nil => exact absurd hS hne
    | cons c cs =>
      simp only [concatMap]
      intro hcon
      exact utf16Units_ne_nil c (List.append_eq_nil.mp hcon).1
  have hie : (utf16 s).isEmpty = false := by
    cases hul : utf16 s with
    | nil => exact absurd hul hune
    | cons x xs => rfl
  have hred := echoHandler_some_of_ne hie
  refine ⟨⟨by rw [hred], by rw [hred], by rw [hred]⟩, ?_, ?_, by decide, by decide,
    by decide⟩
  · intro hb
    have hu : utf16 s = s.data.map Char.toNat := concatMap_utf16_bmp hb
    constructor
    · rw [hred]
      show (utf16 s).length = s.length
      rw [hu, List.length_map]
      rfl
    · have h3 : utf16 (String.mk (s.data.reverse)) = (s.data.reverse).map Char.toNat :=
        concatMap_utf16_bmp (fun c hc => hb c (List.mem_reverse.mp hc))
      rw [hred]
      show (utf16 s).reverse = _
      rw [hu, h3, List.map_reverse]
  · intro ha
    have hb : ∀ c ∈ s.data, c.toNat < 65536 := fun c hc =>
      lt_trans (ha c hc) (by norm_num)
    have hu : utf16 s = s.data.map Char.toNat := concatMap_utf16_bmp hb
    have h2 : utf16 (String.mk (s.data.map asciiUpperChar)) =
        (s.data.map asciiUpperChar).map Char.toNat := by
      refine concatMap_utf16_bmp ?_
      intro c hc
      obtain ⟨d, hd, rfl⟩ := List.mem_map.mp hc
      exact asciiUpperChar_bmp (hb d hd)
    rw [hred]
    show (utf16 s).map jsUpperUnit = _
    rw [hu, h2, List.map_map, List.map_map]
    exact List.map_congr_left fun c _ => jsUpperUnit_toNat c

/-- Claim C4 as stated is false on the code for astral characters: for the
one-character input U+1D11E (musical symbol G clef), `characterCount` is 2
(UTF-16 code units), not the character count 1, and `backwards` is the
code-unit reversal (two swapped surrogate halves), not the character
reversal. -/
theorem claim4_counterexample :
    (echoHandler (some (utf16 "𝄞"))).characterCount = 2 ∧
    ("𝄞" : String).length = 1 ∧
    (echoHandler (some (utf16 "𝄞"))).backwards ≠ utf16 (String.mk ("𝄞".data.reverse)) := by
  decide

/-- Witness for C4 at input `abc`: the character-level count and the ASCII
uppercase clause, with their hypotheses discharged. -/
theorem claim4_witness :
    (echoHandler (some (utf16 "abc"))).characterCount = ("abc" : String).length ∧
    (echoHandler (some (utf16 "abc"))).shouty =
      utf16 (String.mk ("abc".data.map asciiUpperChar)) :=
  ⟨((claim4_echo "abc" (by decide)).2.1 (by decide)).1,
   (claim4_echo "abc" (by decide)).2.2.1 (by decide)⟩

/-! ## Claim about static content types -/

/-- Claim C8: the content type served for a static file is determined solely
by the file's (lowercased) extension through the fixed table — `.html`,
`.jpg`/`.jpeg`, `.png`, `.css`, `.js`, `.pdf`, `.csv`, `.txt` map as listed,
and every other extension maps to `application/octet-stream`. -/
theorem claim8_content_type (filePath : String) :
    staticContentType filePath =
      specContentTypeTable (String.mk ((extname filePath).data.map jsLowerChar)) := rfl
